import Mathlib

/-!
Verification development for the Postgres-backed run storage
(dagster_postgres/run_storage/run_storage.py).

The database tables touched by PostgresRunStorage are modelled as
association lists; the Postgres single-statement upserts
(INSERT ... ON CONFLICT DO UPDATE) are given their row-by-row
semantics, including the engine error raised when one statement
would affect the same row twice.
-/

namespace DagsterPG

/-! ## Key-value store (KeyValueStoreTable) -/

/-- A dynamic Python value, enough to express the runtime type checks that
the dagster parameter checking performs on the argument of kvs_set. -/
inductive PyVal where
  | pyStr : String → PyVal
  | pyInt : Int → PyVal
  | pyBool : Bool → PyVal
  | pyNone : PyVal
deriving DecidableEq, Repr

/-- A Python object passed as the pairs argument of kvs_set: either a mapping
(its items, in iteration order) or a non-mapping object. -/
inductive PyObj where
  | mapping : List (PyVal × PyVal) → PyObj
  | scalar : PyVal → PyObj
deriving DecidableEq, Repr

/-- Whether a dynamic value is a string. -/
def PyVal.isStr : PyVal → Bool
  | .pyStr _ => true
  | _ => false

/-- Modelled from the spec: the dagster helper check.mapping_param (dagster._check, not
under src/) validates that the argument is a mapping whose keys and values have
the requested types (here str and str), raising a parameter-check error
otherwise; per the error-handling design, malformed input is propagated
immediately. On success it yields the typed items of the mapping. -/
def mapping_param : PyObj → Except String (List (String × String))
  | .scalar _ => .error "Param pairs is not a mapping"
  | .mapping [] => .ok []
  | .mapping ((PyVal.pyStr k, PyVal.pyStr v) :: rest) => do
      let tail ← mapping_param (.mapping rest)
      .ok ((k, v) :: tail)
  | .mapping (_ :: _) => .error "Param pairs key or value is not a str"

/-- Whether a Python object is a mapping with string keys and string values. -/
def isStrStrMapping : PyObj → Bool
  | .mapping l => l.all fun p => p.1.isStr && p.2.isStr
  | .scalar _ => false

/-- The kvs table: rows of (key, value); key is the conflict target
(unique index column KeyValueStoreTable.c.key). -/
abbrev KvsTable := List (String × String)

/-- Value stored for a key, if a row with that key is present. -/
def lookupKvs (db : KvsTable) (k : String) : Option String :=
  (db.find? fun p => p.1 = k).map fun p => p.2

/-- One row of the VALUES list of the upsert statement, applied with ON
CONFLICT (key) DO UPDATE SET value = excluded.value: if a row with this key
exists it is overwritten in place, otherwise the new row is inserted. -/
def pgUpsertRow (db : KvsTable) (k v : String) : KvsTable :=
  if db.any fun p => p.1 = k then
    db.map fun p => if p.1 = k then (k, v) else p
  else
    db ++ [(k, v)]

/-- Row-by-row execution of the single batched
INSERT ... ON CONFLICT DO UPDATE statement. Postgres raises an error if one
such statement would insert or update a row for the same key twice, which the
touched accumulator records. -/
def pgUpsertGo (touched : List String) (db : KvsTable) :
    List (String × String) → Except String KvsTable
  | [] => .ok db
  | (k, v) :: rest =>
    if touched.contains k then
      .error "ON CONFLICT DO UPDATE command cannot affect row a second time"
    else
      pgUpsertGo (k :: touched) (pgUpsertRow db k v) rest

/-- The batched atomic upsert statement built by kvs_set, executed against the
kvs table. -/
def pgUpsertKvs (db : KvsTable) (rows : List (String × String)) :
    Except String KvsTable :=
  pgUpsertGo [] db rows

/-- Sequential application of the upsert rows, ignoring the touched-twice
check: the result pgUpsertGo produces whenever it succeeds. -/
def applyRows (db : KvsTable) (rows : List (String × String)) : KvsTable :=
  rows.foldl (fun d p => pgUpsertRow d p.1 p.2) db

/-- Embedding of PostgresRunStorage.kvs_set: validate the pairs argument with
check.mapping_param, build the VALUES list from pairs.items(), and execute the
single ON CONFLICT DO UPDATE statement. On a validation error no statement is
built or executed, so the table is not returned modified. -/
def kvs_set (pairs : PyObj) (db : KvsTable) : Except String KvsTable := do
  let ps ← mapping_param pairs
  pgUpsertKvs db ps

/-- Python dict insertion: assigning d[k] = v overwrites the value in place if
the key is present (keeping its position) and appends the entry otherwise. -/
def dictInsert (d : List (String × String)) (k v : String) :
    List (String × String) :=
  if d.any fun p => p.1 = k then
    d.map fun p => if p.1 = k then (k, v) else p
  else
    d ++ [(k, v)]

/-- Python dict construction from a sequence of key-value pairs: later
occurrences of a key overwrite earlier ones (last-occurrence wins), so the
mapping handed to kvs_set has unique keys. -/
def dictOfList (l : List (String × String)) : List (String × String) :=
  l.foldl (fun d p => dictInsert d p.1 p.2) []

/-- View a string-to-string association list as the Python mapping object it
came from. -/
def toPyMapping (l : List (String × String)) : PyObj :=
  .mapping (l.map fun p => (PyVal.pyStr p.1, PyVal.pyStr p.2))

/-- The value attached to the last occurrence of a key in a raw batch. -/
def lastValueFor (batch : List (String × String)) (k : String) : Option String :=
  (batch.reverse.find? fun p => p.1 = k).map fun p => p.2

/-! ## Daemon heartbeats (DaemonHeartbeatsTable) -/

/-- A daemon heartbeat record: daemon type (the unique key), daemon instance
identifier, timestamp, and the structured payload that is serialized into the
body column. -/
structure DaemonHeartbeat where
  timestamp : Nat
  daemon_type : String
  daemon_id : String
deriving DecidableEq, Repr

/-- Modelled from the spec: the serialization collaborator
(serialize(structured_value) -> opaque_string) is out of scope; any concrete
encoding of the record serves as the opaque string. -/
def serialize_value (hb : DaemonHeartbeat) : String :=
  hb.daemon_type ++ "|" ++ hb.daemon_id ++ "|" ++ toString hb.timestamp

/-- Modelled from the spec: utc_datetime_from_timestamp (dagster._utils, not
under src/) converts a numeric timestamp to its UTC datetime; the conversion is
injective and is modelled as the timestamp itself. -/
def utc_datetime_from_timestamp (t : Nat) : Nat := t

/-- One row of the daemon_heartbeats table. -/
structure HeartbeatRow where
  timestamp : Nat
  daemon_type : String
  daemon_id : String
  body : String
deriving DecidableEq, Repr

/-- The daemon_heartbeats table. -/
abbrev HeartbeatTable := List HeartbeatRow

/-- The row that add_daemon_heartbeat writes for a heartbeat (the VALUES
clause of its insert statement). -/
def heartbeatRow (hb : DaemonHeartbeat) : HeartbeatRow :=
  { timestamp := utc_datetime_from_timestamp hb.timestamp
    daemon_type := hb.daemon_type
    daemon_id := hb.daemon_id
    body := serialize_value hb }

/-- Embedding of PostgresRunStorage.add_daemon_heartbeat: a single
INSERT ... ON CONFLICT (daemon_type) DO UPDATE SET timestamp, daemon_id, body
statement; if a row for the daemon type exists, those three columns are
overwritten with the new values, otherwise a new row is inserted. -/
def add_daemon_heartbeat (db : HeartbeatTable) (hb : DaemonHeartbeat) :
    HeartbeatTable :=
  if db.any fun r => r.daemon_type = hb.daemon_type then
    db.map fun r =>
      if r.daemon_type = hb.daemon_type then
        { timestamp := utc_datetime_from_timestamp hb.timestamp
          daemon_type := r.daemon_type
          daemon_id := hb.daemon_id
          body := serialize_value hb }
      else r
  else
    db ++ [heartbeatRow hb]

/-- The rows of the heartbeat table holding a given daemon type. -/
def rowsOfType (db : HeartbeatTable) (d : String) : HeartbeatTable :=
  db.filter fun r => r.daemon_type = d

/-! ## Migration index cache (has_built_index / mark_index_built) -/

/-- The migration-related state a PostgresRunStorage handle sees: its own
process-local cache (the _index_migration_cache dict, keyed by migration name)
and the persisted markers in the database. -/
structure MigState where
  cache : List (String × Bool)
  built : List String
deriving DecidableEq, Repr

/-- Lookup in the process-local cache dict. -/
def cacheLookup (cache : List (String × Bool)) (name : String) : Option Bool :=
  (cache.find? fun p => p.1 = name).map fun p => p.2

/-- Modelled from the spec: the base-class query of the persisted marker
(SqlRunStorage.has_built_index, not under src/) reports whether the migration
has been marked complete in the persistent table. -/
def sql_has_built_index (built : List String) (name : String) : Bool :=
  built.contains name

/-- Modelled from the spec: the base-class persistence of a marker
(SqlRunStorage.mark_index_built, not under src/) records the migration as
built in the persistent table. -/
def sql_mark_index_built (built : List String) (name : String) : List String :=
  if built.contains name then built else built ++ [name]

/-- Embedding of PostgresRunStorage.has_built_index: if the migration name is
not a key of the process-local cache, query the persisted marker through the
base class and store the answer in the cache; in all cases return the cache
entry. The Bool component records whether a database query was issued. -/
def has_built_index (s : MigState) (name : String) : Bool × MigState × Bool :=
  match cacheLookup s.cache name with
  | some b => (b, s, false)
  | none =>
    let b := sql_has_built_index s.built name
    (b, { s with cache := s.cache ++ [(name, b)] }, true)

/-- Embedding of PostgresRunStorage.mark_index_built: persist the marker
through the base class, then delete the cache entry for the name if present. -/
def mark_index_built (s : MigState) (name : String) : MigState :=
  let built := sql_mark_index_built s.built name
  if (cacheLookup s.cache name).isSome then
    { built := built, cache := s.cache.filter fun p => p.1 ≠ name }
  else
    { built := built, cache := s.cache }

/-! ## Schema bootstrap (the constructor and _init_db) -/

/-- The schema-level state of the shared database: the set of existing table
names and the alembic revision stamp. -/
structure DbState where
  tables : List String
  revision : Option String
deriving DecidableEq, Repr

/-- Modelled from the spec: the tables of the schema of this store
(RunStorageSqlMetadata plus the shared InstanceInfo table; the DDL itself is an
opaque external metadata schema). The primary table is runs and the auxiliary
shared table is instance_info; daemon_heartbeats, kvs and secondary_indexes
back the operations embedded above. -/
def runStorageTables : List String :=
  ["runs", "run_tags", "instance_info", "daemon_heartbeats", "kvs",
   "secondary_indexes", "snapshots", "bulk_actions"]

/-- Modelled from the spec: the current alembic revision token stamped at
creation time. -/
def runStorageRevision : String := "head"

/-- RunStorageSqlMetadata.create_all: create every table of this
schema that does not already exist; tables that already exist are left
untouched (table-already-exists is success during bootstrap). -/
def create_all (db : DbState) : DbState :=
  { db with
    tables := db.tables ++ runStorageTables.filter fun t => ¬ db.tables.contains t }

/-- stamp_alembic_rev: stamp the shared alembic revision. -/
def stamp_alembic_rev (db : DbState) : DbState :=
  { db with revision := some runStorageRevision }

/-- Embedding of PostgresRunStorage._init_db: inside one transaction, create
all tables of the schema and stamp the alembic revision. -/
def _init_db (db : DbState) : DbState :=
  stamp_alembic_rev (create_all db)

/-- InstanceInfo.create: create only the shared instance_info table. -/
def instance_info_create (db : DbState) : DbState :=
  if db.tables.contains "instance_info" then db
  else { db with tables := db.tables ++ ["instance_info"] }

/-- Embedding of the autocreate part of PostgresRunStorage.__init__: query the
existing table names; if runs is absent, run _init_db (followed by migrate()
and optimize(), data-migration steps which per the spec neither create nor
drop tables and do not touch the revision stamp); otherwise, if instance_info
is absent, create only that table; otherwise do nothing. -/
def constructStore (should_autocreate_tables : Bool) (db : DbState) : DbState :=
  if should_autocreate_tables then
    if ¬ db.tables.contains "runs" then _init_db db
    else if ¬ db.tables.contains "instance_info" then instance_info_create db
    else db
  else db

/-! ## Engine configuration (optimize_for_dagit) -/

/-- The engine configuration produced by create_engine, as far as this store
configures it: isolation level, pooling policy, and the options entry of the
connection arguments (mirrored from the url query when reading). -/
structure Engine where
  isolation_level : String
  null_pool : Bool
  pool_size : Option Nat
  pool_recycle : Option Int
  options : Option String
deriving DecidableEq, Repr

/-- The engine built in __init__: autocommit, no connections held between
operations (NullPool), options taken from the postgres url (none when the url
carries no options entry). -/
def initial_engine (url_options : Option String) : Engine :=
  { isolation_level := "AUTOCOMMIT"
    null_pool := true
    pool_size := none
    pool_recycle := none
    options := url_options }

/-- Modelled from the spec: pg_statement_timeout (dagster_postgres.utils, not
under src/) renders the statement-level timeout directive passed through
connection options. -/
def pg_statement_timeout (millis : Nat) : String :=
  "-c statement_timeout=" ++ toString millis ++ "ms"

/-- Python truthiness of the optional options string: None and the empty
string are falsy. -/
def strTruthy : Option String → Bool
  | some s => s ≠ ""
  | none => false

/-- Embedding of PostgresRunStorage.optimize_for_dagit: read the existing
options from the engine url; if truthy, prepend the timeout directive
space-separated, otherwise use the directive alone; then replace the engine by
one holding a single persistent connection with those options. -/
def optimize_for_dagit (engine : Engine) (statement_timeout : Nat)
    (pool_recycle : Int) : Engine :=
  let existing_options := engine.options
  let timeout_option := pg_statement_timeout statement_timeout
  let options :=
    if strTruthy existing_options then
      timeout_option ++ " " ++ existing_options.getD ""
    else
      timeout_option
  { isolation_level := "AUTOCOMMIT"
    null_pool := false
    pool_size := some 1
    pool_recycle := some pool_recycle
    options := some options }

/-! ## Lemmas about the key-value upsert -/

theorem lookupKvs_nil (k : String) : lookupKvs [] k = none := rfl

theorem lookupKvs_cons (p : String × String) (d : KvsTable) (k : String) :
    lookupKvs (p :: d) k = if p.1 = k then some p.2 else lookupKvs d k := by
  simp only [lookupKvs, List.find?]
  by_cases h : p.1 = k <;> simp [h]

theorem lookupKvs_append (d e : KvsTable) (k : String) :
    lookupKvs (d ++ e) k = (lookupKvs d k).or (lookupKvs e k) := by
  unfold lookupKvs
  rw [List.find?_append]
  cases List.find? (fun p => p.1 = k) d <;> simp

theorem lookupKvs_eq_none (d : KvsTable) (k : String) (h : k ∉ d.map Prod.fst) :
    lookupKvs d k = none := by
  unfold lookupKvs
  rw [List.find?_eq_none.mpr]
  · rfl
  · intro p hp hpk
    simp only [decide_eq_true_eq] at hpk
    exact h (hpk ▸ List.mem_map_of_mem Prod.fst hp)

theorem lookupKvs_updateRow_ne (d : KvsTable) (k v k' : String) (h : k' ≠ k) :
    lookupKvs (d.map fun p => if p.1 = k then (k, v) else p) k' = lookupKvs d k' := by
  induction d with
  | nil => rfl
  | cons p rest ih =>
    by_cases hpk : p.1 = k
    · rw [List.map_cons, if_pos hpk, lookupKvs_cons, lookupKvs_cons, hpk]
      simp [Ne.symm h, ih]
    · rw [List.map_cons, if_neg hpk, lookupKvs_cons, lookupKvs_cons, ih]

theorem lookupKvs_updateRow_eq (d : KvsTable) (k v : String)
    (h : (d.any fun p => p.1 = k) = true) :
    lookupKvs (d.map fun p => if p.1 = k then (k, v) else p) k = some v := by
  induction d with
  | nil => simp at h
  | cons p rest ih =>
    by_cases hpk : p.1 = k
    · rw [List.map_cons, if_pos hpk, lookupKvs_cons]
      simp
    · have h2 : (rest.any fun p => p.1 = k) = true := by
        simpa [hpk] using h
      rw [List.map_cons, if_neg hpk, lookupKvs_cons, if_neg hpk, ih h2]

theorem lookupKvs_pgUpsertRow (d : KvsTable) (k v k' : String) :
    lookupKvs (pgUpsertRow d k v) k' = if k' = k then some v else lookupKvs d k' := by
  unfold pgUpsertRow
  by_cases hany : (d.any fun p => p.1 = k) = true
  · rw [if_pos hany]
    by_cases hk : k' = k
    · subst hk
      rw [if_pos rfl, lookupKvs_updateRow_eq d k' v hany]
    · rw [if_neg hk, lookupKvs_updateRow_ne d k v k' hk]
  · rw [if_neg hany, lookupKvs_append]
    have hnone : lookupKvs d k = none := by
      apply lookupKvs_eq_none
      intro hmem
      apply hany
      rw [List.any_eq_true]
      obtain ⟨p, hp, hpk⟩ := List.mem_map.mp hmem
      exact ⟨p, hp, by simp [hpk]⟩
    by_cases hk : k' = k
    · subst hk
      rw [hnone, lookupKvs_cons]
      simp
    · rw [lookupKvs_cons]
      simp [Ne.symm hk, lookupKvs_nil, hk]

theorem filter_updateRow_ne (d : KvsTable) (k v k' : String) (h : k' ≠ k) :
    ((d.map fun p => if p.1 = k then (k, v) else p).filter fun p => p.1 = k')
      = d.filter fun p => p.1 = k' := by
  induction d with
  | nil => rfl
  | cons p rest ih =>
    by_cases hpk : p.1 = k
    · rw [List.map_cons, if_pos hpk]
      rw [List.filter_cons, List.filter_cons]
      simp [Ne.symm h, hpk, ih]
    · rw [List.map_cons, if_neg hpk]
      rw [List.filter_cons, List.filter_cons]
      by_cases hp' : p.1 = k' <;> simp [hp', ih]

theorem filter_pgUpsertRow_ne (d : KvsTable) (k v k' : String) (h : k' ≠ k) :
    ((pgUpsertRow d k v).filter fun p => p.1 = k') = d.filter fun p => p.1 = k' := by
  unfold pgUpsertRow
  by_cases hany : (d.any fun p => p.1 = k) = true
  · rw [if_pos hany]
    exact filter_updateRow_ne d k v k' h
  · rw [if_neg hany, List.filter_append]
    simp [Ne.symm h]

theorem lastValueFor_nil (k : String) : lastValueFor [] k = none := rfl

theorem lastValueFor_cons (p : String × String) (rest : List (String × String))
    (k : String) :
    lastValueFor (p :: rest) k =
      (lastValueFor rest k).or (if p.1 = k then some p.2 else none) := by
  unfold lastValueFor
  rw [List.reverse_cons, List.find?_append]
  cases h : (rest.reverse.find? fun q => q.1 = k) <;>
    by_cases hpk : p.1 = k <;> simp [h, hpk, List.find?]

theorem lastValueFor_eq_none (l : List (String × String)) (k : String)
    (h : k ∉ l.map Prod.fst) : lastValueFor l k = none := by
  unfold lastValueFor
  rw [List.find?_eq_none.mpr]
  · rfl
  · intro p hp hpk
    simp only [decide_eq_true_eq] at hpk
    exact h (hpk ▸ List.mem_map_of_mem Prod.fst (List.mem_reverse.mp hp))

theorem applyRows_cons (db : KvsTable) (p : String × String)
    (rest : List (String × String)) :
    applyRows db (p :: rest) = applyRows (pgUpsertRow db p.1 p.2) rest := rfl

theorem lookupKvs_applyRows (rows : List (String × String)) (db : KvsTable)
    (k : String) :
    lookupKvs (applyRows db rows) k = (lastValueFor rows k).or (lookupKvs db k) := by
  induction rows generalizing db with
  | nil => simp [applyRows, lastValueFor_nil]
  | cons p rest ih =>
    rw [applyRows_cons, ih, lastValueFor_cons, lookupKvs_pgUpsertRow]
    cases h : lastValueFor rest k with
    | some v => simp
    | none =>
      by_cases hpk : p.1 = k
      · simp [hpk]
      · simp [hpk, Ne.symm hpk]

theorem filter_applyRows_ne (rows : List (String × String)) (db : KvsTable)
    (k : String) (h : k ∉ rows.map Prod.fst) :
    ((applyRows db rows).filter fun p => p.1 = k) = db.filter fun p => p.1 = k := by
  induction rows generalizing db with
  | nil => rfl
  | cons p rest ih =>
    have hk1 : k ≠ p.1 := by
      intro he
      exact h (by simp [he])
    have hk2 : k ∉ rest.map Prod.fst := by
      intro he
      exact h (by simp [he])
    rw [applyRows_cons, ih _ hk2, filter_pgUpsertRow_ne db p.1 p.2 k hk1]

theorem pgUpsertGo_ok (rows : List (String × String)) (touched : List String)
    (db : KvsTable) (hnd : (rows.map Prod.fst).Nodup)
    (hdisj : ∀ a ∈ rows.map Prod.fst, a ∉ touched) :
    pgUpsertGo touched db rows = .ok (applyRows db rows) := by
  induction rows generalizing touched db with
  | nil => rfl
  | cons p rest ih =>
    obtain ⟨k, v⟩ := p
    have hnotin : k ∉ touched := hdisj k (by simp)
    have hcont : ¬ (touched.contains k = true) := by
      simpa using hnotin
    rw [List.map_cons, List.nodup_cons] at hnd
    rw [pgUpsertGo, if_neg hcont, applyRows_cons]
    apply ih
    · exact hnd.2
    · intro a ha hmem
      rcases List.mem_cons.mp hmem with h1 | h1
      · exact hnd.1 (h1 ▸ ha)
      · exact hdisj a (by simp [ha]) h1

theorem mapping_param_toPyMapping (l : List (String × String)) :
    mapping_param (toPyMapping l) = .ok l := by
  induction l with
  | nil => simp [toPyMapping, mapping_param]
  | cons p rest ih =>
    obtain ⟨k, v⟩ := p
    unfold toPyMapping at ih ⊢
    rw [List.map_cons, mapping_param, ih]
    rfl

theorem kvs_set_toPyMapping (l : List (String × String)) (db : KvsTable)
    (hnd : (l.map Prod.fst).Nodup) :
    kvs_set (toPyMapping l) db = .ok (applyRows db l) := by
  unfold kvs_set
  rw [mapping_param_toPyMapping]
  show pgUpsertKvs db l = .ok (applyRows db l)
  exact pgUpsertGo_ok l [] db hnd (by simp)

theorem eq_of_mem_keys_nodup {l : List (String × String)} {p q : String × String}
    (hnd : (l.map Prod.fst).Nodup) (hp : p ∈ l) (hq : q ∈ l) (hk : p.1 = q.1) :
    p = q := by
  induction l with
  | nil => cases hp
  | cons x rest ih =>
    rw [List.map_cons, List.nodup_cons] at hnd
    rcases List.mem_cons.mp hp with rfl | hp' <;>
      rcases List.mem_cons.mp hq with rfl | hq'
    · rfl
    · exact absurd (hk ▸ List.mem_map_of_mem Prod.fst hq') hnd.1
    · exact absurd (hk ▸ List.mem_map_of_mem Prod.fst hp') hnd.1
    · exact ih hnd.2 hp' hq'

theorem lastValueFor_eq_of_mem {l : List (String × String)} {k v : String}
    (hnd : (l.map Prod.fst).Nodup) (h : (k, v) ∈ l) :
    lastValueFor l k = some v := by
  have hmem : (k, v) ∈ l.reverse := List.mem_reverse.mpr h
  have hsome : (l.reverse.find? fun q => q.1 = k).isSome := by
    rw [List.find?_isSome]
    exact ⟨(k, v), hmem, by simp⟩
  obtain ⟨q, hq⟩ := Option.isSome_iff_exists.mp hsome
  have hqk : q.1 = k := by simpa using List.find?_some hq
  have hqmem : q ∈ l := List.mem_reverse.mp (List.mem_of_find?_eq_some hq)
  have hqe : q = (k, v) := eq_of_mem_keys_nodup hnd hqmem h (by simp [hqk])
  unfold lastValueFor
  rw [hq, hqe]
  rfl

theorem lastValueFor_isSome_of_mem_keys {l : List (String × String)} {k : String}
    (h : k ∈ l.map Prod.fst) : (lastValueFor l k).isSome = true := by
  obtain ⟨p, hp, hpk⟩ := List.mem_map.mp h
  have hs : (l.reverse.find? fun q => q.1 = k).isSome := by
    rw [List.find?_isSome]
    exact ⟨p, List.mem_reverse.mpr hp, by simp [hpk]⟩
  obtain ⟨q, hq⟩ := Option.isSome_iff_exists.mp hs
  unfold lastValueFor
  rw [hq]
  rfl

theorem keys_updateRow (d : List (String × String)) (k v : String) :
    ((d.map fun p => if p.1 = k then (k, v) else p).map Prod.fst) = d.map Prod.fst := by
  induction d with
  | nil => rfl
  | cons p rest ih =>
    rw [List.map_cons]
    by_cases hpk : p.1 = k
    · rw [if_pos hpk, List.map_cons, List.map_cons, ih]
      simp [hpk]
    · rw [if_neg hpk, List.map_cons, List.map_cons, ih]

theorem dictInsert_keys_nodup {d : List (String × String)} (k v : String)
    (hnd : (d.map Prod.fst).Nodup) : ((dictInsert d k v).map Prod.fst).Nodup := by
  unfold dictInsert
  by_cases h : (d.any fun p => p.1 = k) = true
  · rw [if_pos h, keys_updateRow]
    exact hnd
  · rw [if_neg h, List.map_append]
    have hk : k ∉ d.map Prod.fst := by
      intro hmem
      apply h
      rw [List.any_eq_true]
      obtain ⟨p, hp, hpk⟩ := List.mem_map.mp hmem
      exact ⟨p, hp, by simp [hpk]⟩
    simp [List.nodup_append, hnd, hk]

theorem dictOfList_keys_nodup_aux (l : List (String × String))
    (d : List (String × String)) (hnd : (d.map Prod.fst).Nodup) :
    ((l.foldl (fun d p => dictInsert d p.1 p.2) d).map Prod.fst).Nodup := by
  induction l generalizing d with
  | nil => exact hnd
  | cons p rest ih => exact ih _ (dictInsert_keys_nodup p.1 p.2 hnd)

theorem dictOfList_keys_nodup (l : List (String × String)) :
    ((dictOfList l).map Prod.fst).Nodup :=
  dictOfList_keys_nodup_aux l [] (by simp)

theorem dictOfList_eq_applyRows (l : List (String × String)) :
    dictOfList l = applyRows [] l := rfl

theorem lookupKvs_dictOfList (l : List (String × String)) (k : String) :
    lookupKvs (dictOfList l) k = lastValueFor l k := by
  rw [dictOfList_eq_applyRows, lookupKvs_applyRows, lookupKvs_nil]
  cases lastValueFor l k <;> rfl

theorem lastValueFor_eq_lookupKvs {d : List (String × String)} (k : String)
    (hnd : (d.map Prod.fst).Nodup) : lastValueFor d k = lookupKvs d k := by
  by_cases h : k ∈ d.map Prod.fst
  · obtain ⟨p, hp, hpk⟩ := List.mem_map.mp h
    have hp' : (k, p.2) ∈ d := by
      have : p = (k, p.2) := by
        cases p
        simp at hpk
        simp [hpk]
      exact this ▸ hp
    rw [lastValueFor_eq_of_mem hnd hp']
    have hfind : lookupKvs d k = some p.2 := by
      have hs : (d.find? fun q => q.1 = k).isSome := by
        rw [List.find?_isSome]
        exact ⟨(k, p.2), hp', by simp⟩
      obtain ⟨q, hq⟩ := Option.isSome_iff_exists.mp hs
      have hqk : q.1 = k := by simpa using List.find?_some hq
      have hqmem : q ∈ d := List.mem_of_find?_eq_some hq
      have hqe : q = (k, p.2) := eq_of_mem_keys_nodup hnd hqmem hp' (by simp [hqk])
      unfold lookupKvs
      rw [hq, hqe]
      rfl
    rw [hfind]
  · rw [lastValueFor_eq_none d k h, lookupKvs_eq_none d k h]

/-! ## Lemmas about the heartbeat upsert -/

theorem rowsOfType_updateRow (db : HeartbeatTable) (hb : DaemonHeartbeat) :
    rowsOfType (db.map fun r =>
        if r.daemon_type = hb.daemon_type then
          { timestamp := utc_datetime_from_timestamp hb.timestamp
            daemon_type := r.daemon_type
            daemon_id := hb.daemon_id
            body := serialize_value hb }
        else r) hb.daemon_type
      = (rowsOfType db hb.daemon_type).map fun _ => heartbeatRow hb := by
  induction db with
  | nil => rfl
  | cons r rest ih =>
    rw [List.map_cons]
    by_cases h : r.daemon_type = hb.daemon_type
    · rw [if_pos h]
      unfold rowsOfType at ih ⊢
      rw [List.filter_cons, List.filter_cons]
      simp [h, heartbeatRow, ih]
    · rw [if_neg h]
      unfold rowsOfType at ih ⊢
      rw [List.filter_cons, List.filter_cons]
      simp [h, ih]

theorem rowsOfType_add (db : HeartbeatTable) (hb : DaemonHeartbeat)
    (hinv : (rowsOfType db hb.daemon_type).length ≤ 1) :
    rowsOfType (add_daemon_heartbeat db hb) hb.daemon_type = [heartbeatRow hb] := by
  unfold add_daemon_heartbeat
  by_cases hany : (db.any fun r => r.daemon_type = hb.daemon_type) = true
  · rw [if_pos hany, rowsOfType_updateRow]
    have hne : rowsOfType db hb.daemon_type ≠ [] := by
      rw [List.any_eq_true] at hany
      obtain ⟨r, hr, hrt⟩ := hany
      simp only [decide_eq_true_eq] at hrt
      intro hnil
      have : r ∈ rowsOfType db hb.daemon_type := by
        unfold rowsOfType
        rw [List.mem_filter]
        exact ⟨hr, by simp [hrt]⟩
      rw [hnil] at this
      cases this
    cases hrows : rowsOfType db hb.daemon_type with
    | nil => exact absurd hrows hne
    | cons a tail =>
      rw [hrows] at hinv
      cases tail with
      | nil => rfl
      | cons b tail2 => simp at hinv
  · rw [if_neg hany]
    unfold rowsOfType
    rw [List.filter_append]
    have hempty : db.filter (fun r => r.daemon_type = hb.daemon_type) = [] := by
      rw [List.filter_eq_nil_iff]
      intro r hr
      intro hrt
      apply hany
      rw [List.any_eq_true]
      exact ⟨r, hr, hrt⟩
    rw [hempty]
    simp [heartbeatRow]

theorem rowsOfType_foldl_last (hbs : List DaemonHeartbeat) (db : HeartbeatTable)
    (d : String) (hinv : (rowsOfType db d).length ≤ 1)
    (hall : ∀ hb ∈ hbs, hb.daemon_type = d) (hne : hbs ≠ []) :
    rowsOfType (hbs.foldl add_daemon_heartbeat db) d
      = [heartbeatRow (hbs.getLast hne)] := by
  induction hbs generalizing db with
  | nil => exact absurd rfl hne
  | cons hb rest ih =>
    have hhd : hb.daemon_type = d := hall hb (by simp)
    cases rest with
    | nil =>
      show rowsOfType (add_daemon_heartbeat db hb) d = [heartbeatRow hb]
      rw [← hhd] at hinv ⊢
      exact rowsOfType_add db hb hinv
    | cons hb2 rest2 =>
      have hadd : rowsOfType (add_daemon_heartbeat db hb) d = [heartbeatRow hb] := by
        rw [← hhd] at hinv ⊢
        exact rowsOfType_add db hb hinv
      have step : (hb :: hb2 :: rest2).foldl add_daemon_heartbeat db
          = (hb2 :: rest2).foldl add_daemon_heartbeat (add_daemon_heartbeat db hb) := rfl
      rw [step, List.getLast_cons (by simp)]
      exact ih (add_daemon_heartbeat db hb) (by rw [hadd]; simp)
        (fun x hx => hall x (by simp [hx])) (by simp)

/-! ## Lemmas about parameter validation -/

theorem mapping_param_invalid_list (l : List (PyVal × PyVal))
    (h : (l.all fun p => p.1.isStr && p.2.isStr) = false) :
    ∃ e, mapping_param (.mapping l) = .error e := by
  induction l with
  | nil => simp at h
  | cons p rest ih =>
    obtain ⟨k, v⟩ := p
    cases k with
    | pyStr ks =>
      cases v with
      | pyStr vs =>
        have hrest : (rest.all fun p => p.1.isStr && p.2.isStr) = false := by
          simpa [PyVal.isStr] using h
        obtain ⟨e, he⟩ := ih hrest
        refine ⟨e, ?_⟩
        rw [mapping_param, he]
        rfl
      | pyInt i => exact ⟨"Param pairs key or value is not a str", by simp [mapping_param]⟩
      | pyBool b => exact ⟨"Param pairs key or value is not a str", by simp [mapping_param]⟩
      | pyNone => exact ⟨"Param pairs key or value is not a str", by simp [mapping_param]⟩
    | pyInt i => exact ⟨"Param pairs key or value is not a str", by simp [mapping_param]⟩
    | pyBool b => exact ⟨"Param pairs key or value is not a str", by simp [mapping_param]⟩
    | pyNone => exact ⟨"Param pairs key or value is not a str", by simp [mapping_param]⟩

/-! ## Lemmas about the migration index cache -/

theorem cacheLookup_mark_none (s : MigState) (n : String) :
    cacheLookup (mark_index_built s n).cache n = none := by
  unfold mark_index_built
  by_cases h : (cacheLookup s.cache n).isSome
  · rw [if_pos h]
    show cacheLookup (s.cache.filter fun p => p.1 ≠ n) n = none
    unfold cacheLookup
    rw [List.find?_eq_none.mpr]
    · rfl
    · intro p hp hpn
      simp only [decide_eq_true_eq] at hpn
      have hne := (List.mem_filter.mp hp).2
      simp only [decide_eq_true_eq] at hne
      exact hne hpn
  · rw [if_neg h]
    show cacheLookup s.cache n = none
    exact Option.not_isSome_iff_eq_none.mp h

theorem mark_index_built_built_eq (s : MigState) (n : String) :
    (mark_index_built s n).built = sql_mark_index_built s.built n := by
  unfold mark_index_built
  by_cases h : (cacheLookup s.cache n).isSome
  · rw [if_pos h]
  · rw [if_neg h]

theorem sql_mark_then_has (built : List String) (n : String) :
    sql_has_built_index (sql_mark_index_built built n) n = true := by
  unfold sql_has_built_index sql_mark_index_built
  by_cases h : built.contains n = true
  · rw [if_pos h]
    exact h
  · rw [if_neg h]
    simp

/-! ## The claims -/

/-- C3: for every migration name, mark_index_built followed immediately by
has_built_index returns true, whatever the cache held before the mark: the
mark persists the marker and evicts the cache entry, so the next
has_built_index re-queries the persisted state. -/
theorem mark_index_built_then_has_built_index (s : MigState) (n : String) :
    (has_built_index (mark_index_built s n) n).1 = true := by
  have hc := cacheLookup_mark_none s n
  unfold has_built_index
  rw [hc]
  show sql_has_built_index (mark_index_built s n).built n = true
  rw [mark_index_built_built_eq]
  exact sql_mark_then_has s.built n

/-- C8: the first has_built_index call for a name queries the persisted
marker, caches the result and returns it; a later call on a handle whose
cache holds an entry returns the cached boolean with no database query, even
if the persisted markers changed in between. -/
theorem has_built_index_cache_behavior (s : MigState) (n : String) :
    (cacheLookup s.cache n = none →
      (has_built_index s n).2.2 = true
        ∧ (has_built_index s n).1 = sql_has_built_index s.built n
        ∧ ∀ built2,
            has_built_index ⟨(has_built_index s n).2.1.cache, built2⟩ n
              = ((has_built_index s n).1,
                 ⟨(has_built_index s n).2.1.cache, built2⟩, false))
    ∧ ∀ b, cacheLookup s.cache n = some b → has_built_index s n = (b, s, false) := by
  constructor
  · intro h
    have hstep : has_built_index s n
        = (sql_has_built_index s.built n,
           { s with cache := s.cache ++ [(n, sql_has_built_index s.built n)] },
           true) := by
      unfold has_built_index
      rw [h]
    rw [hstep]
    refine ⟨rfl, rfl, ?_⟩
    intro built2
    have hlook : cacheLookup (s.cache ++ [(n, sql_has_built_index s.built n)]) n
        = some (sql_has_built_index s.built n) := by
      unfold cacheLookup at h ⊢
      rw [List.find?_append]
      have hnone : s.cache.find? (fun p => p.1 = n) = none := by
        cases hf : s.cache.find? (fun p => p.1 = n) with
        | none => rfl
        | some q =>
          rw [hf] at h
          simp at h
      rw [hnone]
      simp [List.find?]
    unfold has_built_index
    rw [show (⟨s.cache ++ [(n, sql_has_built_index s.built n)], built2⟩ :
        MigState).cache = s.cache ++ [(n, sql_has_built_index s.built n)] from rfl]
    rw [hlook]
  · intro b h
    unfold has_built_index
    rw [h]

/-- Witness for C8 at concrete states: a fresh handle facing a persisted
marker reports a query, and a handle with a cached entry answers from the
cache without touching the database. -/
theorem has_built_index_cache_behavior_witness :
    (has_built_index ⟨[], ["m1"]⟩ "m1").2.2 = true
      ∧ has_built_index ⟨[("m2", false)], ["m2"]⟩ "m2"
          = (false, ⟨[("m2", false)], ["m2"]⟩, false) := by
  refine ⟨((has_built_index_cache_behavior ⟨[], ["m1"]⟩ "m1").1 (by rfl)).1, ?_⟩
  exact (has_built_index_cache_behavior ⟨[("m2", false)], ["m2"]⟩ "m2").2
    false (by rfl)

/-- C4: constructing a store with autocreate against a database without the
runs table creates all tables of the schema of this store and stamps the schema
revision, and a second construction against the resulting database is a
no-op: bootstrap is idempotent. -/
theorem constructStore_fresh_bootstrap_idempotent (db : DbState)
    (h : db.tables.contains "runs" = false) :
    (∀ t ∈ runStorageTables, t ∈ (constructStore true db).tables)
      ∧ (constructStore true db).revision = some runStorageRevision
      ∧ constructStore true (constructStore true db) = constructStore true db := by
  have h1 : constructStore true db = _init_db db := by
    have hnm : "runs" ∉ db.tables := by simpa using h
    unfold constructStore
    simp [hnm]
  have hmem : ∀ t ∈ runStorageTables, t ∈ (_init_db db).tables := by
    intro t ht
    show t ∈ db.tables ++ runStorageTables.filter fun t => ¬ db.tables.contains t
    rw [List.mem_append]
    by_cases hc : db.tables.contains t = true
    · left
      simpa using hc
    · right
      rw [List.mem_filter]
      refine ⟨ht, ?_⟩
      simp only [decide_eq_true_eq]
      simpa using hc
  have hrev : (_init_db db).revision = some runStorageRevision := rfl
  refine ⟨h1 ▸ hmem, h1 ▸ hrev, ?_⟩
  rw [h1]
  have hruns : "runs" ∈ (_init_db db).tables :=
    hmem "runs" (by simp [runStorageTables])
  have hinfo : "instance_info" ∈ (_init_db db).tables :=
    hmem "instance_info" (by simp [runStorageTables])
  unfold constructStore
  simp [hruns, hinfo]

/-- Witness for C4 at the empty database. -/
theorem constructStore_fresh_bootstrap_idempotent_witness :
    (constructStore true ⟨[], none⟩).revision = some runStorageRevision
      ∧ constructStore true (constructStore true ⟨[], none⟩)
          = constructStore true ⟨[], none⟩ := by
  have h := constructStore_fresh_bootstrap_idempotent ⟨[], none⟩ rfl
  exact ⟨h.2.1, h.2.2⟩

/-- C5: constructing a store with autocreate against a database where the
revision is stamped and runs exists but instance_info is absent creates only
the instance_info table and leaves the revision stamp unchanged. -/
theorem constructStore_creates_only_instance_info (db : DbState) (r : String)
    (hrev : db.revision = some r)
    (hruns : db.tables.contains "runs" = true)
    (hinfo : db.tables.contains "instance_info" = false) :
    (constructStore true db).tables = db.tables ++ ["instance_info"]
      ∧ (constructStore true db).revision = some r := by
  have h1 : "runs" ∈ db.tables := by simpa using hruns
  have h2 : "instance_info" ∉ db.tables := by simpa using hinfo
  unfold constructStore instance_info_create
  simp [h1, h2, hrev]

/-- Witness for C5 at a database holding only the runs table and a stamp. -/
theorem constructStore_creates_only_instance_info_witness :
    (constructStore true ⟨["runs"], some "abc123"⟩).tables
        = ["runs", "instance_info"]
      ∧ (constructStore true ⟨["runs"], some "abc123"⟩).revision = some "abc123" := by
  have h := constructStore_creates_only_instance_info ⟨["runs"], some "abc123"⟩
    "abc123" rfl (by decide) (by decide)
  exact ⟨h.1, h.2⟩

/-- C7: optimize_for_dagit preserves previously configured connection
options, prepending the statement-timeout directive space-separated to them;
when no options were configured the new options are the directive alone. -/
theorem optimize_for_dagit_prepends_timeout_option (e : Engine) (t : Nat)
    (r : Int) :
    (∀ s, e.options = some s → s ≠ "" →
        (optimize_for_dagit e t r).options
          = some (pg_statement_timeout t ++ " " ++ s))
      ∧ (e.options = none →
          (optimize_for_dagit e t r).options = some (pg_statement_timeout t)) := by
  constructor
  · intro s hs hne
    unfold optimize_for_dagit
    simp [strTruthy, hs, hne]
  · intro h
    unfold optimize_for_dagit
    simp [strTruthy, h]

/-- Witness for C7 at a concrete engine carrying options and one without. -/
theorem optimize_for_dagit_prepends_timeout_option_witness :
    (optimize_for_dagit (initial_engine (some "-c foo=1")) 5000 3600).options
        = some (pg_statement_timeout 5000 ++ " " ++ "-c foo=1")
      ∧ (optimize_for_dagit (initial_engine none) 5000 3600).options
        = some (pg_statement_timeout 5000) := by
  constructor
  · exact (optimize_for_dagit_prepends_timeout_option
      (initial_engine (some "-c foo=1")) 5000 3600).1 "-c foo=1" rfl (by decide)
  · exact (optimize_for_dagit_prepends_timeout_option
      (initial_engine none) 5000 3600).2 rfl

/-- C10: for an argument that is not a mapping with string keys and string
values, kvs_set raises the parameter-check error before building or executing
any statement: the call errors and its behavior is independent of the table
contents, which are left unchanged. -/
theorem kvs_set_invalid_param_error (obj : PyObj) (db : KvsTable)
    (h : isStrStrMapping obj = false) :
    (∃ e, kvs_set obj db = .error e)
      ∧ ∀ db2, kvs_set obj db = kvs_set obj db2 := by
  have herr : ∃ e, mapping_param obj = .error e := by
    cases obj with
    | scalar v => exact ⟨"Param pairs is not a mapping", by simp [mapping_param]⟩
    | mapping l =>
      exact mapping_param_invalid_list l (by simpa [isStrStrMapping] using h)
  obtain ⟨e, he⟩ := herr
  constructor
  · refine ⟨e, ?_⟩
    unfold kvs_set
    rw [he]
    rfl
  · intro db2
    unfold kvs_set
    rw [he]
    rfl

/-- Witness for C10: passing a plain integer for pairs errors identically on
two different tables. -/
theorem kvs_set_invalid_param_error_witness :
    (∃ e, kvs_set (.scalar (.pyInt 3)) [("a", "1")] = .error e)
      ∧ kvs_set (.scalar (.pyInt 3)) [("a", "1")]
          = kvs_set (.scalar (.pyInt 3)) [] := by
  have h := kvs_set_invalid_param_error (.scalar (.pyInt 3)) [("a", "1")] rfl
  exact ⟨h.1, h.2 []⟩

/-- C1: after any sequence of add_daemon_heartbeat calls for one daemon type
on a table holding at most one row for that type, the table still holds at
most one row for that type — in fact exactly the row whose timestamp,
daemon_id and serialized body are those of the most recently submitted
heartbeat, never a merge of old and new values. -/
theorem add_daemon_heartbeat_single_row_last_write (db : HeartbeatTable)
    (d : String) (hbs : List DaemonHeartbeat)
    (hinv : (rowsOfType db d).length ≤ 1)
    (hall : ∀ hb ∈ hbs, hb.daemon_type = d) (hne : hbs ≠ []) :
    (rowsOfType (hbs.foldl add_daemon_heartbeat db) d).length ≤ 1
      ∧ rowsOfType (hbs.foldl add_daemon_heartbeat db) d
          = [heartbeatRow (hbs.getLast hne)] := by
  have h := rowsOfType_foldl_last hbs db d hinv hall hne
  exact ⟨by rw [h]; simp, h⟩

/-- Witness for C1: two heartbeats for the scheduler daemon leave exactly the
row of the second one. -/
theorem add_daemon_heartbeat_single_row_last_write_witness :
    rowsOfType
        (List.foldl add_daemon_heartbeat []
          [⟨10, "SCHEDULER", "a"⟩, ⟨20, "SCHEDULER", "b"⟩]) "SCHEDULER"
      = [heartbeatRow ⟨20, "SCHEDULER", "b"⟩] := by
  have h := add_daemon_heartbeat_single_row_last_write [] "SCHEDULER"
    [⟨10, "SCHEDULER", "a"⟩, ⟨20, "SCHEDULER", "b"⟩]
    (by simp [rowsOfType]) (by decide) (by decide)
  simpa using h.2

/-- C2: for a mapping of string keys to string values (keys unique), the
single batched upsert statement of kvs_set succeeds and afterwards every key
of the mapping stores exactly the value the mapping assigns to it, whether or not a
row for the key existed before. -/
theorem kvs_set_batch_upsert (db : KvsTable) (ps : List (String × String))
    (hnd : (ps.map Prod.fst).Nodup) :
    ∃ db2, kvs_set (toPyMapping ps) db = .ok db2
      ∧ ∀ k v, (k, v) ∈ ps → lookupKvs db2 k = some v := by
  refine ⟨applyRows db ps, kvs_set_toPyMapping ps db hnd, ?_⟩
  intro k v hmem
  rw [lookupKvs_applyRows, lastValueFor_eq_of_mem hnd hmem]
  rfl

/-- Witness for C2: a batch overwriting one existing key and inserting a
fresh one stores both values. -/
theorem kvs_set_batch_upsert_witness :
    ∃ db2, kvs_set (toPyMapping [("a", "1"), ("b", "2")]) [("a", "0"), ("c", "9")]
        = .ok db2
      ∧ lookupKvs db2 "a" = some "1" ∧ lookupKvs db2 "b" = some "2" := by
  obtain ⟨db2, hok, hval⟩ := kvs_set_batch_upsert [("a", "0"), ("c", "9")]
    [("a", "1"), ("b", "2")] (by decide)
  exact ⟨db2, hok, hval "a" "1" (by decide), hval "b" "2" (by decide)⟩

/-- C6: a raw batch containing several occurrences of one key reaches kvs_set
as the Python mapping built from it; the persisted value for that key is
exactly the value of the last occurrence of the key in the batch. -/
theorem kvs_set_duplicate_keys_last_occurrence (db : KvsTable)
    (batch : List (String × String)) (k : String)
    (hk : k ∈ batch.map Prod.fst) :
    ∃ db2, kvs_set (toPyMapping (dictOfList batch)) db = .ok db2
      ∧ lookupKvs db2 k = lastValueFor batch k
      ∧ (lastValueFor batch k).isSome = true := by
  have hnd := dictOfList_keys_nodup batch
  refine ⟨applyRows db (dictOfList batch), kvs_set_toPyMapping _ db hnd, ?_,
    lastValueFor_isSome_of_mem_keys hk⟩
  rw [lookupKvs_applyRows]
  have h3 : lastValueFor (dictOfList batch) k = lastValueFor batch k := by
    rw [lastValueFor_eq_lookupKvs k hnd, lookupKvs_dictOfList]
  rw [h3]
  obtain ⟨v, hv⟩ := Option.isSome_iff_exists.mp (lastValueFor_isSome_of_mem_keys hk)
  rw [hv]
  rfl

/-- Witness for C6: a batch writing the key twice persists the second
value. -/
theorem kvs_set_duplicate_keys_last_occurrence_witness :
    ∃ db2, kvs_set (toPyMapping (dictOfList [("k", "1"), ("k", "2")])) [] = .ok db2
      ∧ lookupKvs db2 "k" = some "2" := by
  obtain ⟨db2, hok, hval, hsome⟩ := kvs_set_duplicate_keys_last_occurrence []
    [("k", "1"), ("k", "2")] "k" (by decide)
  refine ⟨db2, hok, ?_⟩
  rw [hval]
  rfl

/-- C9: kvs_set leaves every key outside the mapping untouched: the rows for
such a key (their presence and their value) are the same before and after the
batched upsert. -/
theorem kvs_set_untouched_keys_frame (db : KvsTable) (ps : List (String × String))
    (k : String) (hnd : (ps.map Prod.fst).Nodup) (hk : k ∉ ps.map Prod.fst) :
    ∃ db2, kvs_set (toPyMapping ps) db = .ok db2
      ∧ (db2.filter fun p => p.1 = k) = (db.filter fun p => p.1 = k)
      ∧ lookupKvs db2 k = lookupKvs db k := by
  refine ⟨applyRows db ps, kvs_set_toPyMapping ps db hnd,
    filter_applyRows_ne ps db k hk, ?_⟩
  rw [lookupKvs_applyRows, lastValueFor_eq_none ps k hk]
  rfl

/-- Witness for C9: writing key a leaves the row of key b unchanged. -/
theorem kvs_set_untouched_keys_frame_witness :
    ∃ db2, kvs_set (toPyMapping [("a", "1")]) [("b", "7")] = .ok db2
      ∧ lookupKvs db2 "b" = some "7" := by
  obtain ⟨db2, hok, _, hval⟩ := kvs_set_untouched_keys_frame [("b", "7")]
    [("a", "1")] "b" (by decide) (by decide)
  refine ⟨db2, hok, ?_⟩
  rw [hval]
  rfl

end DagsterPG
